import Mathlib

set_option autoImplicit false

/-!
Verification of the ECMWF download pipeline
(`src/ecmwf_pipeline/download_pipeline/pipeline.py`): a shallow embedding of
the partition expander, target namer, skip oracle, fetch executor and
orchestrator-setup logic, together with theorems about the spec's claims.
-/

namespace WeatherTools

/-- Python exceptions the embedded functions can raise.  `KeyError` and
`IndexError` are Python builtins; `ConfigurationError` is the repository's own
error class (declared in the parsers module, outside the embedded file); it is
listed so that statements about it are expressible. -/
inductive PyError where
  | keyError (key : String)
  | indexError
  | configurationError (msg : String)
  deriving DecidableEq

def PyError.isConfigurationError : PyError → Bool
  | .configurationError _ => true
  | _ => false

/-- The `selection` section: an insertion-ordered mapping (Python dict) from a
key to its list of candidate values. -/
abbrev Selection := List (String × List String)

/-- Python dict lookup `d[key]` on a selection, as an `Option`. -/
def assocLookup : Selection → String → Option (List String)
  | [], _ => none
  | (k, v) :: rest, key => if k = key then some v else assocLookup rest key

/-- Python dict assignment `d[key] = value`: replaces the value in place when
the key is present (keeping its position), appends otherwise. -/
def assocSet : Selection → String → List String → Selection
  | [], key, value => [(key, value)]
  | (k, v) :: rest, key, value =>
      if k = key then (k, value) :: rest else (k, v) :: assocSet rest key value

/-- One segment of a Python format string: literal text or an auto-numbered
positional replacement field. -/
inductive Seg where
  | lit (s : String)
  | hole
  deriving DecidableEq

abbrev Template := List Seg

/-- Python `str.format` with auto-numbered fields: the i-th field consumes the
i-th argument; a field beyond the supplied arguments raises `IndexError`;
surplus arguments are ignored. -/
def formatTemplate : Template → List String → Except PyError String
  | [], _ => .ok ""
  | .lit s :: rest, vals => (formatTemplate rest vals).map (fun t => s ++ t)
  | .hole :: rest, vals =>
      match vals with
      | [] => .error .indexError
      | v :: vs => (formatTemplate rest vs).map (fun t => v ++ t)

/-- Number of replacement fields in a template. -/
def holeCount : Template → Nat
  | [] => 0
  | .lit _ :: rest => holeCount rest
  | .hole :: rest => holeCount rest + 1

/-- One named parameter sub-mapping (`[parameters.name]` section), holding
provider-specific string overrides such as `api_key` / `api_url`. -/
abbrev Group := List (String × String)

/-- The `parameters` section of a configuration.  The scalar entries the
pipeline reads are fields; named sub-mappings (Python sub-dicts) are `groups`,
in insertion order; the flat provider-specific string entries that a
sub-mapping's `update` overwrites are `overrides`. -/
structure Params where
  partition_keys : List String
  target_template : Template
  force_download : Option Bool
  user_id : Option String
  dataset : Option String
  groups : List (String × Group)
  overrides : List (String × String)
  deriving DecidableEq

/-- A configuration: the two sections the pipeline reads. -/
structure Config where
  selection : Selection
  parameters : Params
  deriving DecidableEq

/-- The blob store as seen by the skip check: its `exists` predicate. -/
abbrev Store := String → Bool

/-- `mapM` over `Except`, written as plain structural recursion. -/
def mapExcept {α β : Type} (f : α → Except PyError β) : List α → Except PyError (List β)
  | [] => .ok []
  | x :: xs => do
      let y ← f x
      let ys ← mapExcept f xs
      .ok (y :: ys)

/-- `config['selection'][key][0]` for one partition key: Python raises
`KeyError` when the key is absent and `IndexError` when its value list is
empty. -/
def keyFirstValue (config : Config) (key : String) : Except PyError String :=
  match assocLookup config.selection key with
  | none => .error (.keyError key)
  | some [] => .error .indexError
  | some (v :: _) => .ok v

/-- `prepare_target_name` (pipeline.py lines 27-33): formats the first value
of each partition key into the target template, positionally. -/
def prepare_target_name (config : Config) : Except PyError String := do
  let partition_key_values ← mapExcept (keyFirstValue config) config.parameters.partition_keys
  formatTemplate config.parameters.target_template partition_key_values

/-- `skip_partition` (pipeline.py lines 36-50): returns true when the
partition should be skipped.  An unset `force_download` returns false at once;
a true `force_download` returns false; otherwise the store is consulted for
the computed target. -/
def skip_partition (config : Config) (store : Store) : Except PyError Bool :=
  match config.parameters.force_download with
  | none => .ok false
  | some fd =>
      if fd then .ok false
      else do
        let target ← prepare_target_name config
        .ok (store target)

/-- `itertools.product` over the per-key value lists (the first list varies
slowest). -/
def cartProd : List (List String) → List (List String)
  | [] => [[]]
  | l :: ls => l.flatMap (fun x => (cartProd ls).map (fun t => x :: t))

/-- The value lists `[selection[key] for key in partition_keys]` that feed the
Cartesian product (pipeline.py line 61); raises `KeyError` on a missing
key. -/
def partitionLists (config : Config) : Except PyError (List (List String)) :=
  mapExcept (fun key =>
    match assocLookup config.selection key with
    | none => .error (.keyError key)
    | some vs => .ok vs) config.parameters.partition_keys

/-- Element `i` of `itertools.cycle(extra_params)` when sub-mappings exist, of
`itertools.repeat(\x7b\x7d)` otherwise (pipeline.py lines 80-81). -/
def groupAt : List (String × Group) → Nat → Group
  | [], _ => []
  | g :: gs, i => (((g :: gs).getD (i % (gs.length + 1)) g).2)

/-- Python dict assignment on a flat string mapping. -/
def assocSetStr : List (String × String) → String → String → List (String × String)
  | [], key, value => [(key, value)]
  | (k, v) :: rest, key, value =>
      if k = key then (k, value) :: rest else (k, v) :: assocSetStr rest key value

/-- `out['parameters'].update(params)` for a sub-mapping of provider-specific
string entries (pipeline.py line 107). -/
def updateParams (p : Params) (g : Group) : Params :=
  { p with overrides := g.foldl (fun acc kv => assocSetStr acc kv.1 kv.2) p.overrides }

/-- The loop body `for idx, key in enumerate(partition_keys):
copy[key] = [option[idx]]` (pipeline.py lines 104-105).  The two lists always
have equal length at the call sites (each option comes from the product of
exactly `partition_keys`-many lists). -/
def narrow (sel : Selection) : List String → List String → Selection
  | [], _ => sel
  | _ :: _, [] => sel
  | key :: keys, v :: vs => narrow (assocSet sel key [v]) keys vs

/-- One observable step of the `prepare_partition` generator: a
`manifest.schedule` call or a yielded partition configuration. -/
inductive Event where
  | schedule (selection : Selection) (location : String) (user : String)
  | yield (out : Config)
  deriving DecidableEq

/-- The generator loop of `prepare_partition` (pipeline.py lines 101-116):
`options` is the remaining fan-out, `i` counts the candidates consumed so far
(the position in the parameter-group cycle), `sel` is the loop-carried
`selection` variable, which the source rebinds to the narrowed copy after each
surviving partition. -/
def prepareLoop (config : Config) (store : Store) :
    Selection → Nat → List (List String) → Except PyError (List Event)
  | _, _, [] => .ok []
  | sel, i, option :: rest => do
      let copy := narrow sel config.parameters.partition_keys option
      let out : Config :=
        { selection := copy,
          parameters := updateParams config.parameters (groupAt config.parameters.groups i) }
      let skip ← skip_partition out store
      if skip then
        prepareLoop config store sel (i + 1) rest
      else do
        let location ← prepare_target_name out
        let user := out.parameters.user_id.getD "unknown"
        let events ← prepareLoop config store copy (i + 1) rest
        .ok (.schedule copy location user :: .yield out :: events)

/-- `prepare_partition` (pipeline.py lines 53-116), as the trace of schedule
calls and yields the generator produces. -/
def prepare_partition (config : Config) (store : Store) : Except PyError (List Event) := do
  let lists ← partitionLists config
  prepareLoop config store config.selection 0 (cartProd lists)

/-- The partitions yielded along a trace. -/
def yields : List Event → List Config
  | [] => []
  | .yield out :: rest => out :: yields rest
  | .schedule _ _ _ :: rest => yields rest

/-- The target locations passed to `manifest.schedule` along a trace. -/
def locations : List Event → List String
  | [] => []
  | .schedule _ loc _ :: rest => loc :: locations rest
  | .yield _ :: rest => locations rest

/-- The users passed to `manifest.schedule` along a trace. -/
def scheduleUsers : List Event → List String
  | [] => []
  | .schedule _ _ u :: rest => u :: scheduleUsers rest
  | .yield _ :: rest => scheduleUsers rest

/-- The (schedule call, yielded partition) pairs of a trace: each
`manifest.schedule` immediately followed by the `yield` it brackets. -/
def tracePairs : List Event → List ((Selection × String × String) × Config)
  | .schedule sel loc u :: .yield out :: rest => ((sel, loc, u), out) :: tracePairs rest
  | _ :: rest => tracePairs rest
  | [] => []

/-- A manifest entry key: (selection, target, user). -/
abbrev ManifestKey := Selection × String × String

/-- Modelled from the spec: the lifecycle states of a manifest entry
(§3, Manifest Entry).  The manifest module itself is not among the embedded
sources. -/
inductive Status where
  | scheduled
  | inProgress
  | success
  | failure (error : String)
  deriving DecidableEq

/-- Modelled from the spec: the manifest's per-key entry store (the manifest
module is not among the embedded sources). -/
abbrev Manifest := List (ManifestKey × Status)

def statusOf : Manifest → ManifestKey → Option Status
  | [], _ => none
  | (k, s) :: rest, key => if k = key then some s else statusOf rest key

def setStatus : Manifest → ManifestKey → Status → Manifest
  | [], key, status => [(key, status)]
  | (k, s) :: rest, key, status =>
      if k = key then (k, status) :: rest else (k, s) :: setStatus rest key status

/-- Modelled from the spec: `Manifest.transact` (§4.4; the manifest module is
not among the embedded sources).  On entry it transitions the entry to
`in-progress`, failing with `ConcurrentDownloadError` when the key is already
`in-progress`; on normal exit of the body it transitions the entry to
`success`; when the body raises it transitions the entry to `failure` with the
error recorded and re-raises the same exception.  Returns the manifest after
the transaction together with the outcome the caller observes. -/
def transact (m : Manifest) (key : ManifestKey) (body : Except String Unit) :
    Manifest × Except String Unit :=
  if statusOf m key = some .inProgress then
    (m, .error "ConcurrentDownloadError")
  else
    let started := setStatus m key .inProgress
    match body with
    | .ok _ => (setStatus started key .success, .ok ())
    | .error e => (setStatus started key (.failure e), .error e)

/-- `fetch_data` (pipeline.py lines 119-146): computes the target and user,
then runs the download/upload inside a manifest transaction keyed by
(selection, target, user).  The transaction body (client.retrieve plus the
chunked upload through a temporary file) touches only external collaborators,
so it enters the embedding as its outcome. -/
def fetch_data (config : Config) (body : Except String Unit) (m : Manifest) :
    Except PyError (Manifest × Except String Unit) := do
  let target ← prepare_target_name config
  let user := config.parameters.user_id.getD "unknown"
  .ok (transact m (config.selection, target, user) body)

/-- The client implementation the orchestrator selects. -/
inductive ClientKind where
  | real (name : String)
  | fake
  deriving DecidableEq

/-- The store implementation the orchestrator selects. -/
inductive StoreKind where
  | gcs
  | tempFile (label : String)
  deriving DecidableEq

/-- The parsed command-line flags `run` reads. -/
structure KnownArgs where
  client : String
  force_download : Bool
  dry_run : Bool
  deriving DecidableEq

/-- The client/store/config resolution slice of `run` (pipeline.py lines
174-190): the client, store and configuration handed to `prepare_partition`
and `fetch_data`.  `login` stands for `os.getlogin()`. -/
def runSetup (config0 : Config) (args : KnownArgs) (login : String) :
    ClientKind × StoreKind × Config :=
  let config : Config :=
    { config0 with parameters :=
        { config0.parameters with
            force_download := some args.force_download, user_id := some login } }
  let client : ClientKind := .real args.client
  let store : StoreKind := .gcs
  if args.dry_run then
    (.fake, .tempFile "dry_run",
      { config with parameters :=
          { config.parameters with force_download := some true } })
  else
    (client, store, config)

/-- A trace consists exactly of (schedule, yield) pairs: every yielded
partition is immediately preceded by its own registration — the schedule call
carries the partition's narrowed selection, its computed target and its user —
and there are no unpaired schedule calls (skipped candidates register
nothing). -/
def WellPaired : List Event → Prop
  | [] => True
  | .schedule sel loc u :: .yield out :: rest =>
      sel = out.selection ∧ prepare_target_name out = .ok loc ∧
      u = out.parameters.user_id.getD "unknown" ∧ WellPaired rest
  | _ => False

/-! ### Concrete fixtures -/

/-- A store with no object. -/
def storeNone : Store := fun _ => false

/-- A store where every object exists. -/
def storeAll : Store := fun _ => true

/-- A store holding exactly the object `t-1`. -/
def storeT1 : Store := fun t => t == "t-1"

/-- The spec's year/month scenario parameters: partition keys year, month and
template `data-\x7b\x7d-\x7b\x7d.nc`; `force_download` unset. -/
def paramsYM : Params :=
  { partition_keys := ["year", "month"],
    target_template := [.lit "data-", .hole, .lit "-", .hole, .lit ".nc"],
    force_download := none, user_id := none, dataset := none,
    groups := [], overrides := [] }

/-- The spec's year/month scenario configuration. -/
def cfgYM : Config :=
  { selection := [("year", ["2020"]), ("month", ["01", "02"])], parameters := paramsYM }

/-- The year/month configuration with `force_download = false`. -/
def cfgYMfd : Config :=
  { cfgYM with parameters := { paramsYM with force_download := some false } }

/-- Two parameter groups, `force_download = false`, two day partitions with
targets `t-1` and `t-2`. -/
def cfgAB : Config :=
  { selection := [("day", ["1", "2"])],
    parameters :=
      { partition_keys := ["day"], target_template := [.lit "t-", .hole],
        force_download := some false, user_id := none, dataset := none,
        groups := [("g1", [("api_key", "K1")]), ("g2", [("api_key", "K2")])],
        overrides := [] } }

/-- Three parameter groups, five day partitions, `force_download` unset (so
nothing is ever skipped). -/
def cfg5 : Config :=
  { selection := [("day", ["1", "2", "3", "4", "5"])],
    parameters :=
      { partition_keys := ["day"], target_template := [.lit "t-", .hole],
        force_download := none, user_id := none, dataset := none,
        groups := [("g1", [("api_key", "K1")]), ("g2", [("api_key", "K2")]),
          ("g3", [("api_key", "K3")])],
        overrides := [] } }

/-- Three parameter groups, five day partitions, `force_download = false` (so
an existing target is skipped). -/
def cfg5s : Config :=
  { cfg5 with parameters := { cfg5.parameters with force_download := some false } }

/-- Partition keys year and month, but `month` missing from the selection. -/
def cfgMissing : Config :=
  { selection := [("year", ["2020"])], parameters := paramsYM }

/-- A template with two replacement fields but a single partition key. -/
def cfgOverref : Config :=
  { selection := [("year", ["2020"])],
    parameters :=
      { partition_keys := ["year"], target_template := [.hole, .lit "-", .hole],
        force_download := none, user_id := none, dataset := none,
        groups := [], overrides := [] } }

/-- A minimal configuration with no partition keys: the Cartesian product has
exactly one (empty) combination. -/
def cfgTiny : Config :=
  { selection := [],
    parameters :=
      { partition_keys := [], target_template := [.lit "only.nc"],
        force_download := none, user_id := none, dataset := none,
        groups := [], overrides := [] } }

/-- The trace the expander produces on `cfgTiny`. -/
def evsTiny : List Event := [.schedule [] "only.nc" "unknown", .yield cfgTiny]

/-- Dry-run command-line flags. -/
def argsDry : KnownArgs := { client := "cds", force_download := false, dry_run := true }

/-! ### Helper lemmas -/

theorem exceptBind_ok {ε α β : Type} (a : α) (f : α → Except ε β) :
    (Except.ok a >>= f : Except ε β) = f a := rfl

theorem exceptBind_error {ε α β : Type} (e : ε) (f : α → Except ε β) :
    (Except.error e >>= f : Except ε β) = Except.error e := rfl

theorem assocLookup_assocSet_self (s : Selection) (key : String) (value : List String) :
    assocLookup (assocSet s key value) key = some value := by
  induction s with
  | nil => simp [assocSet, assocLookup]
  | cons hd tl ih =>
      obtain ⟨k, v⟩ := hd
      by_cases hk : k = key
      · simp [assocSet, assocLookup, hk]
      · simp [assocSet, assocLookup, hk, ih]

theorem assocLookup_assocSet_ne (s : Selection) (k' key : String) (value : List String)
    (h : k' ≠ key) : assocLookup (assocSet s k' value) key = assocLookup s key := by
  induction s with
  | nil => simp [assocSet, assocLookup, h]
  | cons hd tl ih =>
      obtain ⟨k, v⟩ := hd
      by_cases hk : k = k'
      · subst hk
        simp [assocSet, assocLookup, h]
      · simp [assocSet, assocLookup, hk, ih]

theorem narrow_lookup_not_mem (keys : List String) (sel : Selection) (vs : List String)
    (key : String) (h : key ∉ keys) :
    assocLookup (narrow sel keys vs) key = assocLookup sel key := by
  induction keys generalizing sel vs with
  | nil => simp [narrow]
  | cons k ks ih =>
      cases vs with
      | nil => simp [narrow]
      | cons v vtl =>
          have hk : k ≠ key := fun hkk => h (hkk ▸ List.mem_cons_self k ks)
          have hks : key ∉ ks := fun hm => h (List.mem_cons_of_mem _ hm)
          rw [narrow, ih (assocSet sel k [v]) vtl hks,
            assocLookup_assocSet_ne sel k key [v] hk]

theorem narrow_lookup_mem (keys : List String) (sel : Selection) (vs : List String)
    (key : String) (hlen : keys.length ≤ vs.length) (hk : key ∈ keys) :
    ∃ v, assocLookup (narrow sel keys vs) key = some [v] := by
  induction keys generalizing sel vs with
  | nil => cases hk
  | cons k ks ih =>
      cases vs with
      | nil => simp at hlen
      | cons v vtl =>
          by_cases hmem : key ∈ ks
          · exact ih (assocSet sel k [v]) vtl (Nat.le_of_succ_le_succ hlen) hmem
          · have hkey : key = k := by
              rcases List.mem_cons.mp hk with h | h
              · exact h
              · exact absurd h hmem
            subst hkey
            refine ⟨v, ?_⟩
            rw [narrow, narrow_lookup_not_mem ks (assocSet sel key [v]) vtl key hmem,
              assocLookup_assocSet_self]

theorem mapExcept_ok_length {α β : Type} (f : α → Except PyError β)
    (xs : List α) (ys : List β) (h : mapExcept f xs = .ok ys) :
    ys.length = xs.length := by
  induction xs generalizing ys with
  | nil =>
      simp [mapExcept] at h
      simp [← h]
  | cons x xtl ih =>
      cases hfx : f x with
      | error e => simp [mapExcept, hfx, exceptBind_ok, exceptBind_error] at h
      | ok y =>
          cases hrest : mapExcept f xtl with
          | error e => simp [mapExcept, hfx, hrest, exceptBind_ok, exceptBind_error] at h
          | ok ytl =>
              simp [mapExcept, hfx, hrest, exceptBind_ok, exceptBind_error] at h
              simp [← h, ih ytl hrest]

theorem mapExcept_ok_of_forall {α β : Type} (f : α → Except PyError β) (xs : List α)
    (h : ∀ x ∈ xs, ∃ y, f x = .ok y) :
    ∃ ys, mapExcept f xs = .ok ys ∧ ys.length = xs.length := by
  induction xs with
  | nil => exact ⟨[], rfl, rfl⟩
  | cons x xtl ih =>
      obtain ⟨y, hy⟩ := h x (List.mem_cons_self x xtl)
      obtain ⟨ytl, hys, hlen⟩ := ih (fun a ha => h a (List.mem_cons_of_mem _ ha))
      exact ⟨y :: ytl, by simp [mapExcept, hy, hys, exceptBind_ok], by simp [hlen]⟩

theorem mapExcept_error {α β : Type} (f : α → Except PyError β) (xs : List α)
    (e : PyError) (h : mapExcept f xs = .error e) :
    ∃ x ∈ xs, f x = .error e := by
  induction xs with
  | nil => simp [mapExcept] at h
  | cons x xtl ih =>
      cases hfx : f x with
      | error e' =>
          simp [mapExcept, hfx, exceptBind_ok, exceptBind_error] at h
          exact ⟨x, List.mem_cons_self x xtl, by rw [hfx, h]⟩
      | ok y =>
          cases hrest : mapExcept f xtl with
          | error e' =>
              simp [mapExcept, hfx, hrest, exceptBind_ok, exceptBind_error] at h
              obtain ⟨x', hx', hfe⟩ := ih (by rw [hrest, h])
              exact ⟨x', List.mem_cons_of_mem _ hx', hfe⟩
          | ok ytl => simp [mapExcept, hfx, hrest, exceptBind_ok, exceptBind_error] at h

theorem formatTemplate_ok (t : Template) (vals : List String)
    (h : holeCount t ≤ vals.length) : ∃ s, formatTemplate t vals = .ok s := by
  induction t generalizing vals with
  | nil => exact ⟨"", rfl⟩
  | cons seg rest ih =>
      cases seg with
      | lit s =>
          obtain ⟨u, hu⟩ := ih vals (by simpa [holeCount] using h)
          exact ⟨s ++ u, by simp [formatTemplate, hu, Except.map]⟩
      | hole =>
          cases vals with
          | nil => simp [holeCount] at h
          | cons v vtl =>
              obtain ⟨u, hu⟩ := ih vtl (by
                have := h
                simp [holeCount] at this
                omega)
              exact ⟨v ++ u, by simp [formatTemplate, hu, Except.map]⟩

theorem formatTemplate_error (t : Template) (vals : List String) (e : PyError)
    (h : formatTemplate t vals = .error e) : e = .indexError := by
  induction t generalizing vals with
  | nil => simp [formatTemplate] at h
  | cons seg rest ih =>
      cases seg with
      | lit s =>
          cases hrec : formatTemplate rest vals with
          | error e' =>
              simp [formatTemplate, hrec, Except.map] at h
              exact ih vals (by rw [hrec, h])
          | ok u => simp [formatTemplate, hrec, Except.map] at h
      | hole =>
          cases vals with
          | nil =>
              simp [formatTemplate] at h
              exact h.symm
          | cons v vtl =>
              cases hrec : formatTemplate rest vtl with
              | error e' =>
                  simp [formatTemplate, hrec, Except.map] at h
                  exact ih vtl (by rw [hrec, h])
              | ok u => simp [formatTemplate, hrec, Except.map] at h

theorem prepare_target_name_ok (config : Config)
    (hsel : ∀ k ∈ config.parameters.partition_keys,
      ∃ v vs, assocLookup config.selection k = some (v :: vs))
    (hholes : holeCount config.parameters.target_template ≤
      config.parameters.partition_keys.length) :
    ∃ t, prepare_target_name config = .ok t := by
  obtain ⟨vals, hvals, hlen⟩ := mapExcept_ok_of_forall (keyFirstValue config)
    config.parameters.partition_keys (by
      intro k hk
      obtain ⟨v, vs, hv⟩ := hsel k hk
      exact ⟨v, by simp [keyFirstValue, hv]⟩)
  obtain ⟨t, ht⟩ := formatTemplate_ok config.parameters.target_template vals (hlen ▸ hholes)
  exact ⟨t, by simp [prepare_target_name, hvals, ht, exceptBind_ok]⟩

theorem skip_partition_of_fd_ne (c : Config) (store : Store)
    (h : c.parameters.force_download ≠ some false) :
    skip_partition c store = .ok false := by
  cases hfd : c.parameters.force_download with
  | none => simp [skip_partition, hfd]
  | some b =>
      cases b with
      | true => simp [skip_partition, hfd]
      | false => exact absurd hfd h

theorem cartProd_length (ls : List (List String)) :
    (cartProd ls).length = (ls.map List.length).prod := by
  induction ls with
  | nil => simp [cartProd]
  | cons l tl ih =>
      have hconst : ∀ (l' : List String) (c : Nat),
          (l'.map (fun _ => c)).sum = l'.length * c := by
        intro l' c
        induction l' with
        | nil => simp
        | cons x xtl ih2 => simp [ih2, Nat.succ_mul, Nat.add_comm]
      have h1 : (cartProd (l :: tl)).length =
          (l.map (fun _ => (cartProd tl).length)).sum := by
        simp [cartProd, List.length_flatMap, Function.comp_def]
      rw [h1, hconst, ih]
      simp

theorem cartProd_mem_length (ls : List (List String)) (opt : List String)
    (h : opt ∈ cartProd ls) : opt.length = ls.length := by
  induction ls generalizing opt with
  | nil =>
      simp [cartProd] at h
      simp [h]
  | cons l tl ih =>
      simp only [cartProd, List.mem_flatMap, List.mem_map] at h
      obtain ⟨x, _, t, ht, rfl⟩ := h
      simp [ih t ht]

theorem cartProd_of_nil_mem (ls : List (List String)) (h : [] ∈ ls) :
    cartProd ls = [] := by
  induction ls with
  | nil => cases h
  | cons l tl ih =>
      rcases List.mem_cons.mp h with hl | hl
      · simp [cartProd, ← hl]
      · simp [cartProd, ih hl]

theorem updateParams_partition_keys (p : Params) (g : Group) :
    (updateParams p g).partition_keys = p.partition_keys := rfl

theorem updateParams_target_template (p : Params) (g : Group) :
    (updateParams p g).target_template = p.target_template := rfl

theorem updateParams_force_download (p : Params) (g : Group) :
    (updateParams p g).force_download = p.force_download := rfl

theorem updateParams_user_id (p : Params) (g : Group) :
    (updateParams p g).user_id = p.user_id := rfl

theorem updateParams_nil (p : Params) : updateParams p [] = p := rfl

theorem skip_partition_eq_false (c : Config) (store : Store)
    (h : c.parameters.force_download ≠ some false ∨ ∀ t, store t = false)
    (ht : ∃ t, prepare_target_name c = .ok t) :
    skip_partition c store = .ok false := by
  cases hfd : c.parameters.force_download with
  | none => simp [skip_partition, hfd]
  | some b =>
      cases b with
      | true => simp [skip_partition, hfd]
      | false =>
          rcases h with h | h
          · exact absurd hfd h
          · obtain ⟨t, ht⟩ := ht
            simp [skip_partition, hfd, ht, exceptBind_ok, h t]

/-- Along the loop, every option drawn from the fan-out narrows each partition
key to a singleton, so the target name of the candidate is computable and,
when nothing forces a skip, the candidate survives.  This lemma captures the
no-skip runs: the loop succeeds and yields one partition per option. -/
theorem prepareLoop_noskip (config : Config) (store : Store)
    (hholes : holeCount config.parameters.target_template ≤
      config.parameters.partition_keys.length)
    (hns : config.parameters.force_download ≠ some false ∨ ∀ t, store t = false)
    (opts : List (List String))
    (hopts : ∀ opt ∈ opts, config.parameters.partition_keys.length ≤ opt.length) :
    ∀ (sel : Selection) (i : Nat),
      ∃ evs, prepareLoop config store sel i opts = .ok evs ∧
        (yields evs).length = opts.length := by
  induction opts with
  | nil => exact fun sel i => ⟨[], rfl, rfl⟩
  | cons opt rest ih =>
      intro sel i
      have hlen : config.parameters.partition_keys.length ≤ opt.length :=
        hopts opt (List.mem_cons_self opt rest)
      set copy := narrow sel config.parameters.partition_keys opt with hcopy
      set out : Config :=
        { selection := copy,
          parameters := updateParams config.parameters
            (groupAt config.parameters.groups i) } with hout
      have hsel_out : ∀ k ∈ out.parameters.partition_keys,
          ∃ v vs, assocLookup out.selection k = some (v :: vs) := by
        intro k hk
        obtain ⟨v, hv⟩ := narrow_lookup_mem config.parameters.partition_keys sel opt k hlen hk
        exact ⟨v, [], hv⟩
      have htn : ∃ t, prepare_target_name out = .ok t :=
        prepare_target_name_ok out hsel_out hholes
      have hskip : skip_partition out store = .ok false :=
        skip_partition_eq_false out store hns htn
      obtain ⟨t, ht⟩ := htn
      obtain ⟨evs', hevs', hlen'⟩ :=
        ih (fun o ho => hopts o (List.mem_cons_of_mem _ ho)) copy (i + 1)
      refine ⟨.schedule copy t (out.parameters.user_id.getD "unknown") :: .yield out :: evs',
        ?_, ?_⟩
      · simp only [prepareLoop, hout, hcopy] at hskip ht hevs' ⊢
        rw [hskip, exceptBind_ok]
        simp only [Bool.false_eq_true, if_false, ht, exceptBind_ok, hevs']
      · simp [yields, hlen']

/-- Structure of every successful run of the loop: the trace is exactly
(schedule, yield) pairs, the schedule carries the yielded partition's own
selection, target and user, and the yielded partition's user entry is the
original configuration's. -/
theorem prepareLoop_pairs (config : Config) (store : Store) :
    ∀ (opts : List (List String)) (sel : Selection) (i : Nat) (evs : List Event),
      prepareLoop config store sel i opts = .ok evs →
      WellPaired evs ∧
      ∀ s loc u out, ((s, loc, u), out) ∈ tracePairs evs →
        s = out.selection ∧ prepare_target_name out = .ok loc ∧
        u = out.parameters.user_id.getD "unknown" ∧
        out.parameters.user_id = config.parameters.user_id := by
  intro opts
  induction opts with
  | nil =>
      intro sel i evs h
      simp only [prepareLoop] at h
      injection h with h
      subst h
      exact ⟨trivial, fun s loc u out hm => absurd hm (by simp [tracePairs])⟩
  | cons opt rest ih =>
      intro sel i evs h
      simp only [prepareLoop] at h
      set copy := narrow sel config.parameters.partition_keys opt with hcopy
      set out : Config :=
        { selection := copy,
          parameters := updateParams config.parameters
            (groupAt config.parameters.groups i) } with hout
      cases hs : skip_partition out store with
      | error e => rw [hs, exceptBind_error] at h; cases h
      | ok b =>
          rw [hs, exceptBind_ok] at h
          cases b with
          | true =>
              simp only [if_true] at h
              exact ih sel (i + 1) evs h
          | false =>
              simp only [Bool.false_eq_true, if_false] at h
              cases htn : prepare_target_name out with
              | error e => rw [htn, exceptBind_error] at h; cases h
              | ok t =>
                  rw [htn, exceptBind_ok] at h
                  cases hrec : prepareLoop config store copy (i + 1) rest with
                  | error e => rw [hrec, exceptBind_error] at h; cases h
                  | ok evs' =>
                      rw [hrec, exceptBind_ok] at h
                      injection h with h
                      subst h
                      obtain ⟨hwp, hpairs⟩ := ih copy (i + 1) evs' hrec
                      refine ⟨⟨rfl, htn, rfl, hwp⟩, ?_⟩
                      intro s loc u o hm
                      simp only [tracePairs] at hm
                      rcases List.mem_cons.mp hm with hm | hm
                      · simp only [Prod.mk.injEq] at hm
                        obtain ⟨⟨hs1, hs2, hs3⟩, hs4⟩ := hm
                        subst hs1
                        subst hs2
                        subst hs3
                        subst hs4
                        exact ⟨rfl, htn, rfl, rfl⟩
                      · exact hpairs s loc u o hm

/-- Every successful run of the loop emits partitions whose parameters are the
original parameters updated with the group at the partition's own position in
the full candidate sequence: a strictly increasing list of candidate indices,
within the window of remaining options, determines the emitted overlays. -/
theorem prepareLoop_groupIdx (config : Config) (store : Store) :
    ∀ (opts : List (List String)) (sel : Selection) (i : Nat) (evs : List Event),
      prepareLoop config store sel i opts = .ok evs →
      ∃ idxs : List Nat, List.Chain' (· < ·) idxs ∧
        (∀ j ∈ idxs, i ≤ j ∧ j < i + opts.length) ∧
        (yields evs).map (fun o => o.parameters) =
          idxs.map (fun j => updateParams config.parameters
            (groupAt config.parameters.groups j)) := by
  intro opts
  induction opts with
  | nil =>
      intro sel i evs h
      simp only [prepareLoop] at h
      injection h with h
      subst h
      exact ⟨[], List.chain'_nil, by simp, by simp [yields]⟩
  | cons opt rest ih =>
      intro sel i evs h
      simp only [prepareLoop] at h
      set copy := narrow sel config.parameters.partition_keys opt with hcopy
      set out : Config :=
        { selection := copy,
          parameters := updateParams config.parameters
            (groupAt config.parameters.groups i) } with hout
      cases hs : skip_partition out store with
      | error e => rw [hs, exceptBind_error] at h; cases h
      | ok b =>
          rw [hs, exceptBind_ok] at h
          cases b with
          | true =>
              simp only [if_true] at h
              obtain ⟨idxs, hchain, hb, hmap⟩ := ih sel (i + 1) evs h
              refine ⟨idxs, hchain, ?_, hmap⟩
              intro j hj
              obtain ⟨h1, h2⟩ := hb j hj
              simp only [List.length_cons]
              omega
          | false =>
              simp only [Bool.false_eq_true, if_false] at h
              cases htn : prepare_target_name out with
              | error e => rw [htn, exceptBind_error] at h; cases h
              | ok t =>
                  rw [htn, exceptBind_ok] at h
                  cases hrec : prepareLoop config store copy (i + 1) rest with
                  | error e => rw [hrec, exceptBind_error] at h; cases h
                  | ok evs' =>
                      rw [hrec, exceptBind_ok] at h
                      injection h with h
                      subst h
                      obtain ⟨idxs, hchain, hb, hmap⟩ := ih copy (i + 1) evs' hrec
                      refine ⟨i :: idxs, ?_, ?_, ?_⟩
                      · refine List.chain'_cons'.mpr ⟨?_, hchain⟩
                        intro y hy
                        have := hb y (List.mem_of_mem_head? hy)
                        omega
                      · intro j hj
                        simp only [List.length_cons]
                        rcases List.mem_cons.mp hj with hj | hj
                        · subst hj
                          omega
                        · obtain ⟨h1, h2⟩ := hb j hj
                          omega
                      · simp only [yields, List.map_cons, hmap, hout]


theorem statusOf_setStatus_self (m : Manifest) (key : ManifestKey) (s : Status) :
    statusOf (setStatus m key s) key = some s := by
  induction m with
  | nil => simp [setStatus, statusOf]
  | cons hd tl ih =>
      obtain ⟨k, st⟩ := hd
      by_cases hk : k = key
      · simp [setStatus, statusOf, hk]
      · simp [setStatus, statusOf, hk, ih]

theorem keyFirstValue_error (c : Config) (k : String) (e : PyError)
    (h : keyFirstValue c k = .error e) : e.isConfigurationError = false := by
  rw [keyFirstValue] at h
  cases hm : assocLookup c.selection k with
  | none =>
      rw [hm] at h
      injection h with h
      subst h
      rfl
  | some vs =>
      cases vs with
      | nil =>
          rw [hm] at h
          injection h with h
          subst h
          rfl
      | cons v vtl => rw [hm] at h; cases h

theorem prepare_target_name_error (c : Config) (e : PyError)
    (h : prepare_target_name c = .error e) : e.isConfigurationError = false := by
  simp only [prepare_target_name] at h
  cases hm : mapExcept (keyFirstValue c) c.parameters.partition_keys with
  | error e' =>
      rw [hm, exceptBind_error] at h
      injection h with h
      subst h
      obtain ⟨x, _, hx⟩ := mapExcept_error _ _ _ hm
      exact keyFirstValue_error c x e' hx
  | ok vals =>
      rw [hm, exceptBind_ok] at h
      rw [formatTemplate_error _ _ _ h]
      rfl

theorem cartProd_singleton (ys : List String) :
    cartProd [ys] = ys.map (fun y => [y]) := by
  show ys.flatMap (fun a => (cartProd []).map (fun t => a :: t)) = _
  induction ys with
  | nil => rfl
  | cons y ytl ihy =>
      rw [List.flatMap_cons, ihy]
      rfl

theorem cartProd_two (xs ys : List String) (i j : Nat)
    (hi : i < xs.length) (hj : j < ys.length) :
    (cartProd [xs, ys])[i * ys.length + j]? =
      some [xs.get ⟨i, hi⟩, ys.get ⟨j, hj⟩] := by
  induction xs generalizing i with
  | nil => exact absurd hi (Nat.not_lt_zero i)
  | cons x xtl ih =>
      have hsing : cartProd [ys] = ys.map (fun y => [y]) := cartProd_singleton ys
      have hcons : cartProd [x :: xtl, ys] =
          (cartProd [ys]).map (fun t => x :: t) ++ cartProd [xtl, ys] := by
        simp only [cartProd, List.flatMap_cons]
      have hblock : ((cartProd [ys]).map (fun t => x :: t)).length = ys.length := by
        simp [hsing]
      rw [hcons, List.getElem?_append, hblock]
      cases i with
      | zero =>
          rw [Nat.zero_mul, Nat.zero_add, if_pos hj, hsing, List.map_map,
            List.getElem?_map, List.getElem?_eq_getElem hj]
          rfl
      | succ n =>
          have harr : (n + 1) * ys.length + j = ys.length + (n * ys.length + j) := by
            ring
          rw [harr, if_neg (Nat.not_lt.mpr (Nat.le_add_right ys.length _)),
            Nat.add_sub_cancel_left]
          exact ih n (Nat.lt_of_succ_lt_succ hi)

/-! ### Claims -/

/-- Claim C1 (amended): the skip oracle decides skip = true iff
`force_download` is present and false in `parameters` and the store reports an
object at the computed target; when `force_download` is true or unset it never
skips — in particular no existence check is performed when the flag is
unset. -/
theorem skip_partition_decision (config : Config) (store : Store) (t : String)
    (ht : prepare_target_name config = .ok t) :
    skip_partition config store =
      .ok (if config.parameters.force_download = some false then store t else false) := by
  cases hfd : config.parameters.force_download with
  | none => simp [skip_partition, hfd]
  | some b =>
      cases b with
      | true => simp [skip_partition, hfd]
      | false => simp [skip_partition, hfd, ht, exceptBind_ok]

/-- Witness for C1's theorem: year/month configuration with
`force_download = false` against a store holding every object. -/
theorem skip_partition_decision_witness :
    skip_partition cfgYMfd storeAll =
      .ok (if cfgYMfd.parameters.force_download = some false
        then storeAll "data-2020-01.nc" else false) :=
  skip_partition_decision cfgYMfd storeAll "data-2020-01.nc" rfl

/-- Counterexample to C1 as stated: with `force_download` unset and the target
existing in the store, the skip oracle answers false, while the claim demands
skip = true. -/
theorem skip_partition_unset_counterexample :
    cfgYM.parameters.force_download = none ∧
    prepare_target_name cfgYM = .ok "data-2020-01.nc" ∧
    storeAll "data-2020-01.nc" = true ∧
    skip_partition cfgYM storeAll = .ok false :=
  ⟨rfl, rfl, rfl, rfl⟩

/-- Claim C2: a manifest transaction whose body completes normally leaves the
entry in `success` and returns normally; one whose body raises leaves the
entry in `failure` with the error recorded and re-raises the same
exception. -/
theorem transact_outcome (m : Manifest) (key : ManifestKey) (body : Except String Unit)
    (h : statusOf m key ≠ some .inProgress) :
    (body = .ok () →
      statusOf (transact m key body).1 key = some .success ∧
      (transact m key body).2 = .ok ()) ∧
    (∀ e, body = .error e →
      statusOf (transact m key body).1 key = some (.failure e) ∧
      (transact m key body).2 = .error e) := by
  constructor
  · intro hb
    subst hb
    simp [transact, h, statusOf_setStatus_self]
  · intro e hb
    subst hb
    simp [transact, h, statusOf_setStatus_self]

/-- Witness for C2's theorem: an empty manifest with a concrete key, one
normally-completing body and one raising body. -/
theorem transact_outcome_witness :
    (statusOf (transact [] ([], "only.nc", "unknown") (.ok ())).1
        ([], "only.nc", "unknown") = some .success ∧
      (transact [] ([], "only.nc", "unknown") (.ok ())).2 = .ok ()) ∧
    (statusOf (transact [] ([], "only.nc", "unknown") (.error "boom")).1
        ([], "only.nc", "unknown") = some (.failure "boom") ∧
      (transact [] ([], "only.nc", "unknown") (.error "boom")).2 = .error "boom") :=
  ⟨(transact_outcome [] ([], "only.nc", "unknown") (.ok ())
      (by simp [statusOf])).1 rfl,
   (transact_outcome [] ([], "only.nc", "unknown") (.error "boom")
      (by simp [statusOf])).2 "boom" rfl⟩

/-- Claim C3: with partition-key value lists of sizes n₁…nₖ, when no candidate
is filtered by the skip check (no forced-false download, or an empty store)
the expander succeeds and yields exactly ∏nᵢ partitions; when any value list
is empty it yields nothing at all. -/
theorem prepare_partition_count (config : Config) (store : Store)
    (lists : List (List String)) (hl : partitionLists config = .ok lists) :
    ((config.parameters.force_download ≠ some false ∨ ∀ t, store t = false) →
      holeCount config.parameters.target_template ≤
        config.parameters.partition_keys.length →
      ∃ evs, prepare_partition config store = .ok evs ∧
        (yields evs).length = (lists.map List.length).prod) ∧
    ([] ∈ lists → prepare_partition config store = .ok []) := by
  have hlen : lists.length = config.parameters.partition_keys.length :=
    mapExcept_ok_length _ _ _ hl
  constructor
  · intro hns hholes
    obtain ⟨evs, hevs, hy⟩ := prepareLoop_noskip config store hholes hns (cartProd lists)
      (fun opt ho => by
        rw [← hlen]
        exact Nat.le_of_eq (cartProd_mem_length lists opt ho).symm)
      config.selection 0
    refine ⟨evs, ?_, by rw [hy, cartProd_length]⟩
    simp only [prepare_partition]
    rw [hl, exceptBind_ok, hevs]
  · intro hnil
    simp only [prepare_partition]
    rw [hl, exceptBind_ok, cartProd_of_nil_mem lists hnil]
    rfl

/-- Witness for C3's theorem: the year/month configuration against an empty
store yields 1·2 partitions. -/
theorem prepare_partition_count_witness :
    ∃ evs, prepare_partition cfgYM storeNone = .ok evs ∧
      (yields evs).length = ([["2020"], ["01", "02"]].map List.length).prod :=
  (prepare_partition_count cfgYM storeNone [["2020"], ["01", "02"]] rfl).1
    (Or.inl (by decide)) (by decide)

/-- Claim C4: every partition the expander yields was registered in the
manifest as scheduled — with its narrowed selection, computed target and
user — immediately before being yielded, and skipped candidates register
nothing: every successful trace consists exactly of (schedule, yield)
pairs. -/
theorem prepare_partition_wellPaired (config : Config) (store : Store)
    (evs : List Event) (h : prepare_partition config store = .ok evs) :
    WellPaired evs := by
  cases hl : partitionLists config with
  | error e =>
      simp only [prepare_partition] at h
      rw [hl, exceptBind_error] at h
      cases h
  | ok lists =>
      simp only [prepare_partition] at h
      rw [hl, exceptBind_ok] at h
      exact (prepareLoop_pairs config store (cartProd lists) config.selection 0 evs h).1

/-- Witness for C4's theorem: the tiny configuration's concrete trace. -/
theorem prepare_partition_wellPaired_witness : WellPaired evsTiny :=
  prepare_partition_wellPaired cfgTiny storeNone evsTiny rfl

/-- Counterexample to C5 as stated: two sub-mappings K1, K2 and a store where
the first candidate's target `t-1` already exists; the single emitted
partition — the first emitted — carries the second sub-mapping, not the
first. -/
theorem prepare_partition_group_counterexample :
    cfgAB.parameters.groups =
      [("g1", [("api_key", "K1")]), ("g2", [("api_key", "K2")])] ∧
    (prepare_partition cfgAB storeT1).map
        (fun evs => (yields evs).map (fun o => o.parameters.overrides)) =
      .ok [[("api_key", "K2")]] :=
  ⟨rfl, rfl⟩

/-- Claim C5 (amended): sub-mappings are cycled round-robin over the candidate
combinations of the product, so when no candidate is skipped the emitted
partitions receive them in order — three groups and five partitions give
K1,K2,K3,K1,K2 — and with no sub-mappings every emitted partition keeps the
original parameters unchanged (an empty overlay). -/
theorem prepare_partition_round_robin :
    ((prepare_partition cfg5 storeNone).map
        (fun evs => (yields evs).map (fun o => o.parameters.overrides)) =
      .ok [[("api_key", "K1")], [("api_key", "K2")], [("api_key", "K3")],
        [("api_key", "K1")], [("api_key", "K2")]]) ∧
    (∀ (config : Config) (store : Store) (evs : List Event),
      config.parameters.groups = [] →
      prepare_partition config store = .ok evs →
      ∀ out ∈ yields evs, out.parameters = config.parameters) := by
  constructor
  · rfl
  · intro config store evs hg h out hout
    cases hl : partitionLists config with
    | error e =>
        simp only [prepare_partition] at h
        rw [hl, exceptBind_error] at h
        cases h
    | ok lists =>
        simp only [prepare_partition] at h
        rw [hl, exceptBind_ok] at h
        obtain ⟨idxs, _, _, hmap⟩ :=
          prepareLoop_groupIdx config store (cartProd lists) config.selection 0 evs h
        have hmem : out.parameters ∈ (yields evs).map (fun o => o.parameters) :=
          List.mem_map_of_mem _ hout
        rw [hmap] at hmem
        obtain ⟨j, _, hj⟩ := List.mem_map.mp hmem
        rw [← hj, hg]
        rfl

/-- Witness for C5's theorem: the tiny configuration has no sub-mappings and
its single partition keeps the original parameters. -/
theorem prepare_partition_round_robin_witness :
    cfgTiny.parameters = cfgTiny.parameters :=
  prepare_partition_round_robin.2 cfgTiny storeNone evsTiny rfl rfl cfgTiny
    (by simp [evsTiny, yields])

/-- Claim C6: the expander enumerates the Cartesian product in odometer order
(the first-listed key varies slowest: with two keys, combination (i, j) sits
at index i·|ys|+j), and on the year/month scenario it schedules exactly the
two targets data-2020-01.nc then data-2020-02.nc, in that order. -/
theorem prepare_partition_order :
    (∀ (xs ys : List String) (i j : Nat) (hi : i < xs.length) (hj : j < ys.length),
      (cartProd [xs, ys])[i * ys.length + j]? =
        some [xs.get ⟨i, hi⟩, ys.get ⟨j, hj⟩]) ∧
    (prepare_partition cfgYM storeNone).map locations =
      .ok ["data-2020-01.nc", "data-2020-02.nc"] :=
  ⟨cartProd_two, rfl⟩

/-- Witness for C6's theorem: on the year/month value lists, combination
(0, 1) sits at index 0·2+1 and is ("2020", "02"). -/
theorem prepare_partition_order_witness :
    (cartProd [["2020"], ["01", "02"]])[0 * 2 + 1]? = some ["2020", "02"] :=
  prepare_partition_order.1 ["2020"] ["01", "02"] 0 1 (by decide) (by decide)

/-- Counterexample to C7 as stated: a partition key missing from `selection`
raises `KeyError`, and an over-referencing template raises `IndexError` —
neither is a `ConfigurationError`. -/
theorem prepare_target_name_error_counterexample :
    prepare_target_name cfgMissing = .error (.keyError "month") ∧
    PyError.isConfigurationError (.keyError "month") = false ∧
    prepare_target_name cfgOverref = .error .indexError ∧
    PyError.isConfigurationError .indexError = false :=
  ⟨rfl, rfl, rfl, rfl⟩

/-- Claim C7 (amended): the target namer fails with the builtin `KeyError`
when a partition key is absent from `selection` and with the builtin
`IndexError` when the template references more positions than supplied
values; it never raises a `ConfigurationError`. -/
theorem prepare_target_name_error_kinds :
    (∀ (c : Config) (e : PyError), prepare_target_name c = .error e →
      e.isConfigurationError = false) ∧
    prepare_target_name cfgMissing = .error (.keyError "month") ∧
    prepare_target_name cfgOverref = .error .indexError :=
  ⟨prepare_target_name_error, rfl, rfl⟩

/-- Witness for C7's theorem, at the configuration whose month key is
missing. -/
theorem prepare_target_name_error_kinds_witness :
    PyError.isConfigurationError (.keyError "month") = false :=
  prepare_target_name_error_kinds.1 cfgMissing (.keyError "month") rfl


/-- Claim C8: with the dry-run flag, the orchestrator substitutes the
non-network fake client and the local temp-file store, and forces
`force_download = true` in the configuration's parameters — under which the
skip check always answers false, so every candidate partition is generated
and executed. -/
theorem run_dry_run_setup (config0 : Config) (args : KnownArgs) (login : String)
    (h : args.dry_run = true) :
    runSetup config0 args login =
      (.fake, .tempFile "dry_run",
        { config0 with parameters :=
            { config0.parameters with
                force_download := some true, user_id := some login } }) ∧
    (∀ (c : Config) (store : Store) (lists : List (List String)),
      partitionLists c = .ok lists →
      c.parameters.force_download = some true →
      holeCount c.parameters.target_template ≤ c.parameters.partition_keys.length →
      ∃ evs, prepare_partition c store = .ok evs ∧
        (yields evs).length = (lists.map List.length).prod) := by
  constructor
  · simp [runSetup, h]
  · intro c store lists hl hfd hholes
    have hlen : lists.length = c.parameters.partition_keys.length :=
      mapExcept_ok_length _ _ _ hl
    obtain ⟨evs, hevs, hy⟩ := prepareLoop_noskip c store hholes
      (Or.inl (by simp [hfd])) (cartProd lists)
      (fun opt ho => by
        rw [← hlen]
        exact Nat.le_of_eq (cartProd_mem_length lists opt ho).symm)
      c.selection 0
    refine ⟨evs, ?_, by rw [hy, cartProd_length]⟩
    simp only [prepare_partition]
    rw [hl, exceptBind_ok, hevs]

/-- Witness for C8's theorem: dry-run flags on the year/month
configuration. -/
theorem run_dry_run_setup_witness :
    runSetup cfgYM argsDry "alice" =
      (.fake, .tempFile "dry_run",
        { cfgYM with parameters :=
            { cfgYM.parameters with
                force_download := some true, user_id := some "alice" } }) :=
  (run_dry_run_setup cfgYM argsDry "alice" rfl).1

/-- Claim C9: when `user_id` is absent from `parameters`, every schedule call
of the expander uses the default user "unknown", and the fetch executor's
manifest transaction for the scheduled partition addresses exactly the
scheduled key — same selection, same target, same "unknown" user. -/
theorem schedule_and_transact_same_key (config : Config) (store : Store)
    (evs : List Event) (h : prepare_partition config store = .ok evs)
    (hu : config.parameters.user_id = none) :
    ∀ s loc u out, ((s, loc, u), out) ∈ tracePairs evs →
      u = "unknown" ∧
      ∀ (body : Except String Unit) (m : Manifest),
        fetch_data out body m = .ok (transact m (s, loc, u) body) := by
  cases hl : partitionLists config with
  | error e =>
      simp only [prepare_partition] at h
      rw [hl, exceptBind_error] at h
      cases h
  | ok lists =>
      simp only [prepare_partition] at h
      rw [hl, exceptBind_ok] at h
      obtain ⟨_, hpairs⟩ :=
        prepareLoop_pairs config store (cartProd lists) config.selection 0 evs h
      intro s loc u out hm
      obtain ⟨hs, hloc, huu, huid⟩ := hpairs s loc u out hm
      have hu2 : out.parameters.user_id = none := by rw [huid, hu]
      have hu3 : u = "unknown" := by rw [huu, hu2]; rfl
      refine ⟨hu3, ?_⟩
      intro body m
      simp only [fetch_data]
      rw [hloc, exceptBind_ok, hs, huu]

/-- Witness for C9's theorem: on the tiny configuration's run, the single
scheduled pair, a trivial body and an empty manifest. -/
theorem schedule_and_transact_same_key_witness :
    fetch_data cfgTiny (.ok ()) [] =
      .ok (transact [] ([], "only.nc", "unknown") (.ok ())) :=
  (schedule_and_transact_same_key cfgTiny storeNone evsTiny rfl rfl
    [] "only.nc" "unknown" cfgTiny (by simp [evsTiny, tracePairs])).2 (.ok ()) []

/-- Claim C10: the parameter-group cycle advances once per candidate
combination of the full product — the overlay an emitted partition receives is
the group at its own candidate index, a strictly increasing sequence of
positions within the product, regardless of which candidates the skip check
filtered; concretely, with three groups and the first of five candidates
skipped, the emitted overlays start at the second group: K2,K3,K1,K2. -/
theorem group_cycle_by_candidate_position :
    (∀ (config : Config) (store : Store) (lists : List (List String))
      (evs : List Event),
      partitionLists config = .ok lists →
      prepare_partition config store = .ok evs →
      ∃ idxs : List Nat, List.Chain' (· < ·) idxs ∧
        (∀ j ∈ idxs, j < (cartProd lists).length) ∧
        (yields evs).map (fun o => o.parameters) =
          idxs.map (fun j => updateParams config.parameters
            (groupAt config.parameters.groups j))) ∧
    ((prepare_partition cfg5s storeT1).map
        (fun evs => (yields evs).map (fun o => o.parameters.overrides)) =
      .ok [[("api_key", "K2")], [("api_key", "K3")], [("api_key", "K1")],
        [("api_key", "K2")]]) := by
  constructor
  · intro config store lists evs hl h
    simp only [prepare_partition] at h
    rw [hl, exceptBind_ok] at h
    obtain ⟨idxs, hchain, hb, hmap⟩ :=
      prepareLoop_groupIdx config store (cartProd lists) config.selection 0 evs h
    refine ⟨idxs, hchain, ?_, hmap⟩
    intro j hj
    have := (hb j hj).2
    omega
  · rfl

/-- Witness for C10's theorem: the tiny configuration's run. -/
theorem group_cycle_by_candidate_position_witness :
    ∃ idxs : List Nat, List.Chain' (· < ·) idxs ∧
      (∀ j ∈ idxs, j < (cartProd []).length) ∧
      (yields evsTiny).map (fun o => o.parameters) =
        idxs.map (fun j => updateParams cfgTiny.parameters
          (groupAt cfgTiny.parameters.groups j)) :=
  group_cycle_by_candidate_position.1 cfgTiny storeNone [] evsTiny rfl rfl

end WeatherTools
